import Mathlib

set_option maxRecDepth 100000

/-!
Verification development for the mcbuild MITM proxy (mcproxy.c, mcp_packet.c).

The C sources are shallowly embedded: machine integers become `Nat`/`Int`
with explicit `% 2^w` where overflow matters, fixed-size `char[n]` struct
fields are modelled by `arrFill n` (a `memmove` into a zeroed array),
fallible paths return `Except`/`Option`, and calls into external libraries
(OpenSSL RSA/AES, zlib, gettimeofday) are parameters (oracles) of the
embedded functions.  `exit(1)` in the source is the `Abort.exitProc`
outcome, a failed `assert()` is `Abort.assertFail`, and a read past the
available bytes (undefined behaviour in C) is `Abort.ub`.
-/

/-! ## Wire codec: varints and big-endian integers (lh_bytes helpers) -/

/-- `lh_place_varint`/`write_varint` on a `uint32_t` value: 7-bit groups,
LSB first, continuation bit in the MSB of each byte; at most 5 bytes for a
32-bit value.  The first argument is only a structural recursion bound and
is never exhausted for 32-bit values. -/
def writeVarintFuel : Nat → Nat → List Nat
  | 0, n => [n % 128]
  | f + 1, n =>
    if n < 128 then [n] else (n % 128 + 128) :: writeVarintFuel f (n / 128)

def writeVarint (n : Nat) : List Nat :=
  writeVarintFuel 5 (n % 4294967296)

/-- `lh_read_varint`: consume continuation bytes, return the decoded value
and the remaining bytes; `none` if the buffer ends inside the varint
(reading past the buffer is UB in the C source). -/
def readVarintAux : Nat → Nat → List Nat → Option (Nat × List Nat)
  | _, _, [] => none
  | acc, mult, b :: rest =>
    if b < 128 then some (acc + b % 128 * mult, rest)
    else readVarintAux (acc + b % 128 * mult) (mult * 128) rest

def readVarint (l : List Nat) : Option (Nat × List Nat) :=
  readVarintAux 0 1 l

/-- `lh_write_int_be` on a `uint32_t`: four big-endian bytes (low 32 bits). -/
def be32 (n : Nat) : List Nat :=
  [n / 2 ^ 24 % 256, n / 2 ^ 16 % 256, n / 2 ^ 8 % 256, n % 256]

/-- `memmove` of `l` into a zero-initialised `char[n]` field (the whole
`mitm` struct is `CLEAR`ed when a session starts): the first `n` bytes of
`l` padded with zeros. -/
def arrFill (n : Nat) (l : List Nat) : List Nat :=
  List.take n (l ++ List.replicate n 0)

/-- C string truncation: `sprintf("%s", s)` / `strlen(s)` stop at the first
NUL byte. -/
def cstr (l : List Nat) : List Nat := l.takeWhile (· ≠ 0)

/-- `write_packet_raw`: prepend the varint length to a payload (the bytes
appended to the destination `lh_buf_t`). -/
def write_packet_raw (payload : List Nat) : List Nat :=
  writeVarint payload.length ++ payload

/-! ## Crypto engine: SHA-1 (`query_auth_server`) and `print_hex` -/

def rotl32 (x n : Nat) : Nat :=
  ((x <<< n) ||| (x >>> (32 - n))) % 4294967296

/-- F function of SHA-1, by round index. -/
def sha1F (t b c d : Nat) : Nat :=
  if t < 20 then (b &&& c) ||| ((b ^^^ 4294967295) &&& d)
  else if t < 40 then b ^^^ c ^^^ d
  else if t < 60 then (b &&& c) ||| (b &&& d) ||| (c &&& d)
  else b ^^^ c ^^^ d

def sha1K (t : Nat) : Nat :=
  if t < 20 then 0x5A827999
  else if t < 40 then 0x6ED9EBA1
  else if t < 60 then 0x8F1BBCDC
  else 0xCA62C1D6

/-- Merkle–Damgård padding: 0x80, zeros, 64-bit big-endian bit length. -/
def sha1Pad (msg : List Nat) : List Nat :=
  let L := msg.length
  let k := (119 - L % 64) % 64
  msg ++ 128 :: List.replicate k 0 ++
    [8 * L / 2 ^ 56 % 256, 8 * L / 2 ^ 48 % 256, 8 * L / 2 ^ 40 % 256,
     8 * L / 2 ^ 32 % 256, 8 * L / 2 ^ 24 % 256, 8 * L / 2 ^ 16 % 256,
     8 * L / 2 ^ 8 % 256, 8 * L % 256]

/-- Split into 64-byte blocks (fuel-based structural recursion; the fuel
`l.length` always suffices). -/
def toBlocksFuel : Nat → List Nat → List (List Nat)
  | _, [] => []
  | 0, _ => []
  | f + 1, l => l.take 64 :: toBlocksFuel f (l.drop 64)

def toBlocks (l : List Nat) : List (List Nat) :=
  toBlocksFuel l.length l

/-- Pack bytes into 32-bit big-endian words (the load of `W[0..15]`
in `SHA1_Transform`), four bytes at a time. -/
def bytesToWordsFuel : Nat → List Nat → List Nat
  | 0, _ => []
  | f + 1, b0 :: b1 :: b2 :: b3 :: rest =>
    (b0 % 256 * 2 ^ 24 + b1 % 256 * 2 ^ 16 + b2 % 256 * 2 ^ 8 + b3 % 256) ::
      bytesToWordsFuel f rest
  | _ + 1, _ => []

/-- The extension loop of the `W[80]` message schedule, building the
list in reverse: each new word `W[j]` is consed onto the front, so
`W[j-3]`, `W[j-8]`, `W[j-14]`, `W[j-16]` are the entries at reverse
offsets 2, 7, 13, 15. -/
def sha1WordsAux : Nat → List Nat → List Nat
  | 0, a => a
  | f + 1, a =>
    match a with
    | _x0 :: _x1 :: x2 :: _x3 :: _x4 :: _x5 :: _x6 :: x7 :: _x8 :: _x9 ::
        _x10 :: _x11 :: _x12 :: x13 :: _x14 :: x15 :: _ =>
      sha1WordsAux f (rotl32 (x2 ^^^ x7 ^^^ x13 ^^^ x15) 1 :: a)
    | _ => a

/-- The 80-entry message schedule of one 64-byte block (the `W[80]`
array of `SHA1_Transform`, kept as a list). -/
def sha1Words (b : List Nat) : List Nat :=
  (sha1WordsAux 64 (bytesToWordsFuel 16 b).reverse).reverse

/-- The 80 rounds of `SHA1_Transform`: the round counter `t`, the
working state `(a, b, c, d, e)`, and the remaining message-schedule
words, consumed in order. -/
def sha1RoundsAux : Nat → Nat × Nat × Nat × Nat × Nat → List Nat →
    Nat × Nat × Nat × Nat × Nat
  | _, st, [] => st
  | t, st, wt :: rest =>
    sha1RoundsAux (t + 1)
      ((rotl32 st.1 5 + sha1F t st.2.1 st.2.2.1 st.2.2.2.1 + st.2.2.2.2 +
          sha1K t + wt) % 4294967296,
       st.1, rotl32 st.2.1 30, st.2.2.1, st.2.2.2.1) rest

def sha1Block (h : Nat × Nat × Nat × Nat × Nat) (blk : List Nat) :
    Nat × Nat × Nat × Nat × Nat :=
  let s := sha1RoundsAux 0 h (sha1Words blk)
  ((h.1 + s.1) % 4294967296, (h.2.1 + s.2.1) % 4294967296,
   (h.2.2.1 + s.2.2.1) % 4294967296, (h.2.2.2.1 + s.2.2.2.1) % 4294967296,
   (h.2.2.2.2 + s.2.2.2.2) % 4294967296)

/-- SHA-1 over a byte list, producing the 20 digest bytes
(`SHA1_Init`/`Update`/`Final` over the concatenated input). -/
def sha1 (msg : List Nat) : List Nat :=
  let r := (toBlocks (sha1Pad msg)).foldl sha1Block
    (0x67452301, 0xEFCDAB89, 0x98BADCFE, 0x10325476, 0xC3D2E1F0)
  be32 r.1 ++ be32 r.2.1 ++ be32 r.2.2.1 ++ be32 r.2.2.2.1 ++ be32 r.2.2.2.2

/-! `print_hex` (mcproxy.c:819): format a byte string as a signed
two's-complement hex bigint, lowercase, leading zeros stripped. -/

def hexDigit (n : Nat) : Char :=
  if n < 10 then Char.ofNat (48 + n) else Char.ofNat (87 + n)

def hexByte (n : Nat) : List Char :=
  [hexDigit (n / 16 % 16), hexDigit (n % 16)]

/-- The per-byte loop of `print_hex`: when the sign flag is set, each byte
is negated (mod 256, mirroring signed `char` arithmetic) and all but the
last byte are additionally decremented. -/
def printHexDigits (f : Bool) : List Nat → List Char
  | [] => []
  | d :: rest =>
    let d0 := d % 256
    let dd := if f then (if rest.isEmpty then (256 - d0) % 256
                         else (511 - d0) % 256)
              else d0
    hexByte dd ++ printHexDigits f rest

def print_hex (data : List Nat) : String :=
  let f := 128 ≤ data.headD 0 % 256
  let digits := printHexDigits f data
  String.mk ((if f then ['-'] else []) ++ digits.dropWhile (fun c => c = '0'))

/-- `query_auth_server` (mcproxy.c:850): the sessionId posted to the real
session server is the `print_hex`-formatted SHA-1 of
serverId ‖ server-side shared key ‖ server DER pubkey (the three
`SHA1_Update` calls). -/
def query_auth_sessionId (s_id s_skey s_pkey : List Nat) : String :=
  print_hex (sha1 (s_id ++ s_skey ++ s_pkey))

/-! ## mcp_packet.c: packet objects and codec -/

/-- `MCPacket` (mcp_packet.h): type id, direction (`cl` = came from the
client), `modified` flag, the raw payload copy made by `decode_packet`
(bytes after the type varint), plus the only decoded union field the codec
table of mcp_packet.c fills in (`p_SetCompression.threshold`) and the
protocol version tag. -/
structure MCPacket where
  type : Nat
  cl : Bool
  modified : Bool
  raw : List Nat
  threshold : Nat
  ver : Nat
deriving DecidableEq, Repr

/-- The `SUPPORT` method table, as partial maps indexed by
(direction, packet type).  A decode method only parses the raw bytes into
union fields (threshold, version tag); an encode method re-encodes the
payload of a packet. -/
structure Support where
  decodeM : Bool → Nat → Option (List Nat → Nat × Nat)
  encodeM : Bool → Nat → Option (MCPacket → List Nat)

/-- `decode_packet` (mcp_packet.c:119): read the type varint, copy the
remainder as the raw payload, mark unmodified, run the decode method when
one is registered.  Unknown types keep only the opaque raw copy; the
function never fails (`none` models only the UB of reading a varint past
the end of the buffer). -/
def decode_packet (sup : Support) (is_client : Bool) (data : List Nat) :
    Option MCPacket :=
  match readVarint data with
  | none => none
  | some (ty, rest) =>
    let base : MCPacket :=
      { type := ty, cl := is_client, modified := false, raw := rest,
        threshold := 0, ver := 0 }
    some (match sup.decodeM is_client ty with
          | some dm => { base with threshold := (dm rest).1, ver := (dm rest).2 }
          | none => base)

/-- `encode_packet` (mcp_packet.c:147): write the type varint; an
unmodified packet re-emits its raw copy byte-for-byte; a modified packet
needs a registered encode method, otherwise `assert(0)` (modelled as
`none`). -/
def encode_packet (sup : Support) (pkt : MCPacket) : Option (List Nat) :=
  if pkt.modified = false then some (writeVarint pkt.type ++ pkt.raw)
  else
    match sup.encodeM pkt.cl pkt.type with
    | some em => some (writeVarint pkt.type ++ em pkt)
    | none => none

/-! ## Compression layer and write path (mcproxy.c) -/

/-- zlib as oracles: `lh_zlib_encode_to` and `lh_zlib_decode_to`. -/
structure ZlibOracles where
  deflate : List Nat → List Nat
  inflate : List Nat → Option (List Nat)

/-- `MAXPLEN` (mcproxy.c:370): size of the static compression scratch
buffers `ubuf`/`cbuf`. -/
def MAXPLEN : Nat := 4 * 1024 * 1024

/-- `write_packet` (mcproxy.c:377): encode the packet; with compression
active (`comptr ≥ 0`) emit `varint(ulen) ‖ deflate(frame)` when
`ulen ≥ comptr`, else `varint(0) ‖ frame`; then frame with the outer
length varint.  `none` models the `assert`s (`clen > 0`) and the
assert-on-modified-without-encoder inside `encode_packet`. -/
def write_packet (zo : ZlibOracles) (comptr : Int) (sup : Support)
    (pkt : MCPacket) : Option (List Nat) :=
  match encode_packet sup pkt with
  | none => none
  | some enc =>
    if 0 ≤ comptr then
      if comptr ≤ (enc.length : Int) then
        let c := zo.deflate enc
        if c.length = 0 then none
        else some (write_packet_raw (writeVarint enc.length ++ c))
      else
        some (write_packet_raw (writeVarint 0 ++ enc))
    else
      some (write_packet_raw enc)

/-! ## The mitm session context (mcproxy.c:64) -/

/-- The session aggregate.  Byte-buffer fields keep their C names; the AES
key-schedule fields `c_aes`/`s_aes` store the key that
`AES_set_encrypt_key` was given. -/
structure Mitm where
  state : Nat
  comptr : Int
  s_id : List Nat
  s_pkey : List Nat
  c_pkey : List Nat
  s_token : List Nat
  c_token : List Nat
  s_skey : List Nat
  c_skey : List Nat
  enable_encryption : Bool
  encryption_active : Bool
  c_aes : List Nat
  s_aes : List Nat
  c_enc_iv : List Nat
  c_dec_iv : List Nat
  s_enc_iv : List Nat
  s_dec_iv : List Nat
  cs_rx : List Nat
  ms_rx : List Nat
  cs_tx : List Nat
  ms_tx : List Nat
  output : Bool
deriving DecidableEq, Repr

/-- `CLEAR(mitm)`: the zeroed session context. -/
def mitm0 : Mitm :=
  { state := 0, comptr := 0, s_id := [], s_pkey := [], c_pkey := [],
    s_token := [], c_token := [], s_skey := [], c_skey := [],
    enable_encryption := false, encryption_active := false,
    c_aes := [], s_aes := [], c_enc_iv := [], c_dec_iv := [],
    s_enc_iv := [], s_dec_iv := [], cs_rx := [], ms_rx := [],
    cs_tx := [], ms_tx := [], output := false }

/-- Abnormal terminations: `exit(1)`, a failed `assert()`, or a read past
the received bytes (undefined behaviour in the C source). -/
inductive Abort where
  | exitProc
  | assertFail
  | ub
deriving DecidableEq, Repr

/-- Result of one packet processor: the new session state plus the bytes
appended to the forward (`tx`) and retour (`bx`) buffers. -/
abbrev PRes := Except Abort (Mitm × List Nat × List Nat)

instance {ε α : Type} [DecidableEq ε] [DecidableEq α] :
    DecidableEq (Except ε α) := fun a b =>
  match a, b with
  | .error e, .error f =>
    if h : e = f then isTrue (by rw [h]) else isFalse (by simp [h])
  | .ok x, .ok y =>
    if h : x = y then isTrue (by rw [h]) else isFalse (by simp [h])
  | .error _, .ok _ => isFalse (by simp)
  | .ok _, .error _ => isFalse (by simp)

/-- OpenSSL calls of the LOGIN phase as oracles: `RSA_private_decrypt`
with the proxy's keypair (`none` = negative return), `RSA_public_encrypt`
with the server's public key, `d2i_RSA_PUBKEY` success,
`RSA_generate_key(1024, RSA_F4)` + `i2d_RSA_PUBKEY` (the DER bytes of the
freshly generated key, `none` = generation failure), and the two
`RAND_pseudo_bytes` draws (16-byte AES key, 4-byte token). -/
structure LoginOracles where
  rsaPrivDecrypt : List Nat → Option (List Nat)
  rsaPubEncrypt : List Nat → List Nat
  derDecode : List Nat → Bool
  genRsaDer : Option (List Nat)
  freshSkey : List Nat
  freshTok : List Nat

/-- `write_varint(w, (short)eklen)`: the `short` cast, sign-extended back
to the 32-bit value the varint writer receives. -/
def shortToVarintVal (n : Nat) : Nat :=
  let e := n % 65536
  if e < 32768 then e else 4294967296 - 65536 + e

/-- `(int32_t)` view of a 32-bit value (for `mitm.comptr = threshold`). -/
def toInt32 (n : Nat) : Int :=
  if n % 4294967296 < 2147483648 then (n % 4294967296 : Int)
  else (n % 4294967296 : Int) - 4294967296

/-! ## LOGIN-phase handshake interception (mcproxy.c:147, 217, 286) -/

/-- `process_encryption_request` (mcproxy.c:147): parse
`serverId ‖ pubkey ‖ token` from the server, store them, decode the
server's public key (fail ⇒ `exit(1)`), draw a fresh server-side AES key,
generate the client-side RSA keypair (fail ⇒ `exit(1)`), DER-encode it,
draw a fresh client-side token, and emit the synthesized
EncryptionRequest to the client.  `pid` is `PID(SL_EncryptionRequest)`.
Oversized fields would smash the fixed struct arrays in C (`.ub`). -/
def process_encryption_request (lo : LoginOracles) (pid : Nat) (m : Mitm)
    (p : List Nat) : PRes :=
  match readVarint p with
  | none => .error .ub
  | some (slen, r1) =>
    if r1.length < slen then .error .ub else
    let serverID := cstr (r1.take slen)
    let r2 := r1.drop slen
    match readVarint r2 with
    | none => .error .ub
    | some (klen, r3) =>
      if r3.length < klen ∨ 1024 < klen then .error .ub else
      let pkey := r3.take klen
      let r4 := r3.drop klen
      match readVarint r4 with
      | none => .error .ub
      | some (tlen, r5) =>
        if r5.length < tlen ∨ 4 < tlen then .error .ub else
        let tok := r5.take tlen
        let m1 := { m with s_id := serverID, s_pkey := pkey,
                           s_token := arrFill 4 tok }
        if lo.derDecode pkey = false then .error .exitProc else
        let m2 := { m1 with s_skey := arrFill 16 lo.freshSkey }
        match lo.genRsaDer with
        | none => .error .exitProc
        | some der =>
          let m3 := { m2 with c_pkey := der, c_token := arrFill 4 lo.freshTok }
          let env := (if 0 ≤ m.comptr then writeVarint 0 else []) ++
                     writeVarint pid ++
                     writeVarint serverID.length ++ serverID ++
                     writeVarint der.length ++ der ++
                     writeVarint 4 ++ m3.c_token
          .ok (m3, write_packet_raw env, [])

/-- `process_encryption_response` (mcproxy.c:217): parse the two
ciphertexts, RSA-decrypt both with the proxy's private key
(fail ⇒ `exit(1)`), store the first 16 decrypted bytes as the client AES
key, compare the first 4 decrypted token bytes against the issued
client-side token (mismatch ⇒ `exit(1)`), then RSA-encrypt the
server-side AES key and the stored server token with the server's public
key, emit the EncryptionResponse to the server, and arm
`enable_encryption`.  `pid` is `PID(CL_EncryptionResponse)`.
(`query_auth_server` does I/O only; its hash is `query_auth_sessionId`.) -/
def process_encryption_response (lo : LoginOracles) (pid : Nat) (m : Mitm)
    (p : List Nat) : PRes :=
  match readVarint p with
  | none => .error .ub
  | some (sklen, r1) =>
    if r1.length < sklen then .error .ub else
    let skey := r1.take sklen
    let r2 := r1.drop sklen
    match readVarint r2 with
    | none => .error .ub
    | some (tklen, r3) =>
      if r3.length < tklen then .error .ub else
      let token := r3.take tklen
      match lo.rsaPrivDecrypt skey with
      | none => .error .exitProc
      | some dk =>
        if dk.length < 16 then .error .ub else
        let m1 := { m with c_skey := dk.take 16 }
        match lo.rsaPrivDecrypt token with
        | none => .error .exitProc
        | some dt =>
          if dt.length < 4 then .error .ub else
          if dt.take 4 ≠ m1.c_token then .error .exitProc else
          let ek := lo.rsaPubEncrypt m1.s_skey
          let et := lo.rsaPubEncrypt m1.s_token
          let env := (if 0 ≤ m.comptr then writeVarint 0 else []) ++
                     writeVarint pid ++
                     writeVarint (shortToVarintVal ek.length) ++ ek ++
                     writeVarint (shortToVarintVal et.length) ++ et
          .ok ({ m1 with enable_encryption := true }, write_packet_raw env, [])

/-- The packet-id constants from mcp_ids.h (the header is not part of the
sources; only the id of each named LOGIN/IDLE packet is needed, so they
are parameters). -/
structure Ids where
  handshake : Nat
  encResponse : Nat
  encRequest : Nat
  setCompression : Nat
  loginSuccess : Nat

/-- `stype` selector (mcproxy.c:302):
`(state<<24) | (is_client<<28) | (type&0xffffff)`. -/
def stypeOf (cl : Bool) (st : Nat) (pid : Nat) : Nat :=
  ((st % 4294967296) <<< 24 |||
   (if cl then 1 else 0) <<< 28 ||| pid % 16777216) % 4294967296

/-- `process_packet` (mcproxy.c:286): the IDLE/STATUS/LOGIN dispatcher.
With compression active it first strips the leading compressed-envelope
varint and `assert`s it is zero; then dispatches on
(direction, state, type): Handshake sets the next state,
EncryptionResponse/Request run the interceptors, SetCompression stores the
threshold, LoginSuccess enters PLAY; everything else is forwarded as is.
All forwarded cases re-emit the original frame bytes. -/
def process_packet (lo : LoginOracles) (ids : Ids) (is_client : Bool)
    (m : Mitm) (frame : List Nat) : PRes :=
  let stripped : Except Abort (List Nat) :=
    if 0 ≤ m.comptr then
      match readVarint frame with
      | none => .error .ub
      | some (uclen, rest) =>
        if uclen ≠ 0 then .error .assertFail else .ok rest
    else .ok frame
  match stripped with
  | .error a => .error a
  | .ok p0 =>
    match readVarint p0 with
    | none => .error .ub
    | some (ty, pp) =>
      let stype := stypeOf is_client m.state ty
      if stype = stypeOf true 0 ids.handshake then
        match readVarint pp with
        | none => .error .ub
        | some (_, q1) =>
          match readVarint q1 with
          | none => .error .ub
          | some (alen, q2) =>
            if q2.length < alen + 2 then .error .ub else
            match readVarint ((q2.drop alen).drop 2) with
            | none => .error .ub
            | some (nextState, _) =>
              .ok ({ m with state := nextState }, write_packet_raw frame, [])
      else if stype = stypeOf true 2 ids.encResponse then
        process_encryption_response lo ids.encResponse m pp
      else if stype = stypeOf false 2 ids.encRequest then
        process_encryption_request lo ids.encRequest m pp
      else if stype = stypeOf false 2 ids.setCompression then
        match readVarint pp with
        | none => .error .ub
        | some (threshold, _) =>
          .ok ({ m with comptr := toInt32 threshold }, write_packet_raw frame, [])
      else if stype = stypeOf false 2 ids.loginSuccess then
        .ok ({ m with state := 3 }, write_packet_raw frame, [])
      else
        .ok (m, write_packet_raw frame, [])

/-- `handle_packet` (mcproxy.c:363): the default PLAY handler queues every
decoded packet, unmodified, onto the forward queue. -/
def handle_packet (pkt : MCPacket) : List MCPacket × List MCPacket :=
  ([pkt], [])

/-- `process_play_packet` (mcproxy.c:416): with compression active read the
`usize` varint; `usize > 0` inflates the remainder into the 4 MiB `ubuf`
and `assert`s the inflated length equals `usize`; then decode, run
`handle_packet`, and `write_packet` each queued packet to the forward
(`tx`) and retour (`bx`) buffers.  The session state is not modified. -/
def process_play_packet (zo : ZlibOracles)
    (sup : Support) (is_client : Bool) (m : Mitm) (frame : List Nat) : PRes :=
  let body : Except Abort (List Nat) :=
    if 0 ≤ m.comptr then
      match readVarint frame with
      | none => .error .ub
      | some (usize, rest) =>
        if usize = 0 then .ok rest
        else
          match zo.inflate rest with
          | none => .error .assertFail
          | some out =>
            if out.length = usize ∧ usize ≤ MAXPLEN then .ok out
            else .error .assertFail
    else .ok frame
  match body with
  | .error a => .error a
  | .ok p =>
    match decode_packet sup is_client p with
    | none => .error .ub
    | some pkt =>
      let (tq, bq) := handle_packet pkt
      match (tq.mapM (write_packet zo m.comptr sup), bq.mapM (write_packet zo m.comptr sup)) with
      | (some txs, some bxs) => .ok (m, txs.flatten, bxs.flatten)
      | _ => .error .assertFail

/-! ## Connection pump (`handle_proxy`, mcproxy.c:507) -/

/-- `AES_cfb8_encrypt` as oracles: key schedule, IV, data ↦
(output, advanced IV).  Encrypt and decrypt directions are separate. -/
structure AesOracles where
  aesEnc : List Nat → List Nat → List Nat → List Nat × List Nat
  aesDec : List Nat → List Nat → List Nat → List Nat × List Nat

/-- State threaded through the frame-extraction loop: session context,
remaining decoded receive buffer, capture records appended so far, bytes
appended to the forward and retour buffers. -/
structure LoopSt where
  m : Mitm
  rx : List Nat
  cap : List (List Nat)
  txAdd : List Nat
  bxAdd : List Nat
deriving DecidableEq, Repr

/-- The `while(rx->C(data) > 0)` frame-extraction loop (mcproxy.c:575):
stop on an empty buffer, on a long-varint prefix with fewer than 129 bytes
buffered, or on an incomplete frame; otherwise append the capture record
(direction, seconds, microseconds, length, frame bytes — taken from the
decoded receive buffer), process the frame in the dispatcher selected by
the session state, drop the consumed bytes and continue.  The fuel is a
structural bound; `rx.length + 1` always suffices since every iteration
consumes at least one byte. -/
def extractLoop (lo : LoginOracles) (zo : ZlibOracles) (ids : Ids)
    (sup : Support) (is_client : Bool) (tv : Nat × Nat) :
    Nat → LoopSt → Except Abort LoopSt
  | 0, st => .ok st
  | fuel + 1, st =>
    if st.rx = [] then .ok st
    else if 128 ≤ st.rx.headD 0 ∧ st.rx.length < 129 then .ok st
    else
      match readVarint st.rx with
      | none => .error .ub
      | some (plen, after) =>
        let ll := st.rx.length - after.length
        if st.rx.length < plen + ll then .ok st
        else
          let frame := after.take plen
          let cap' := if st.m.output then
              st.cap ++ [be32 (if is_client then 1 else 0) ++ be32 tv.1 ++
                         be32 tv.2 ++ be32 plen ++ frame]
            else st.cap
          let res := if st.m.state = 3 then
              process_play_packet zo sup is_client st.m frame
            else process_packet lo ids is_client st.m frame
          match res with
          | .error a => .error a
          | .ok (m', txA, bxA) =>
            extractLoop lo zo ids sup is_client tv fuel
              { m := m', rx := st.rx.drop (ll + plen), cap := cap',
                txAdd := st.txAdd ++ txA, bxAdd := st.bxAdd ++ bxA }

/-- Result of one `handle_proxy` call: the remote-EOF teardown branch, a
normal completion (new state, capture records, bytes sent towards the
opposite peer and back towards the arrival side), or an abnormal
termination. -/
inductive HPRes where
  | eof (m : Mitm)
  | ok (m : Mitm) (cap : List (List Nat)) (sendTx : List Nat)
       (sendBx : List Nat)
  | fail (a : Abort)
deriving DecidableEq, Repr

/-- The read-side decryption step of `handle_proxy` (mcproxy.c:547): with
encryption active decrypt the incoming bytes with that leg's key and
decrypt-IV cursor (advancing it); otherwise pass them through. -/
def decryptIn (ao : AesOracles) (is_client : Bool) (m : Mitm)
    (inBytes : List Nat) : List Nat × Mitm :=
  if m.encryption_active then
    if is_client then
      let r := ao.aesDec m.c_aes m.c_dec_iv inBytes
      (r.1, { m with c_dec_iv := r.2 })
    else
      let r := ao.aesDec m.s_aes m.s_dec_iv inBytes
      (r.1, { m with s_dec_iv := r.2 })
  else (inBytes, m)

/-- The forward-buffer flush of `handle_proxy` (mcproxy.c:618): if there is
data, encrypt it in place when active (client data goes to the server leg
and vice versa) and send it. -/
def flushTx (ao : AesOracles) (is_client : Bool) (m2 : Mitm)
    (txBuf : List Nat) : List Nat × Mitm :=
  if txBuf ≠ [] then
    if m2.encryption_active then
      if is_client then
        let r := ao.aesEnc m2.s_aes m2.s_enc_iv txBuf
        (r.1, { m2 with s_enc_iv := r.2 })
      else
        let r := ao.aesEnc m2.c_aes m2.c_enc_iv txBuf
        (r.1, { m2 with c_enc_iv := r.2 })
    else (txBuf, m2)
  else ([], m2)

/-- The retour-buffer flush of `handle_proxy` (mcproxy.c:636). -/
def flushBx (ao : AesOracles) (is_client : Bool) (m3 : Mitm)
    (bxBuf : List Nat) : List Nat × Mitm :=
  if bxBuf ≠ [] then
    if m3.encryption_active then
      if is_client then
        let r := ao.aesEnc m3.c_aes m3.c_enc_iv bxBuf
        (r.1, { m3 with c_enc_iv := r.2 })
      else
        let r := ao.aesEnc m3.s_aes m3.s_enc_iv bxBuf
        (r.1, { m3 with s_enc_iv := r.2 })
    else (bxBuf, m3)
  else ([], m3)

/-- The deferred encryption activation at the end of a `handle_proxy`
iteration (mcproxy.c:653): if `enable_encryption` was armed, initialise
both AES contexts from the session keys, set all four IV cursors to the
respective key bytes, clear the flag and switch `encryption_active` on. -/
def enableStep (m4 : Mitm) : Mitm :=
  if m4.enable_encryption then
    { m4 with c_aes := m4.c_skey, c_enc_iv := m4.c_skey,
              c_dec_iv := m4.c_skey, s_aes := m4.s_skey,
              s_enc_iv := m4.s_skey, s_dec_iv := m4.s_skey,
              enable_encryption := false, encryption_active := true }
  else m4

/-- The loop state `handle_proxy` starts the extraction loop with: the
(possibly decrypted) incoming bytes appended to that leg's decoded
receive buffer. -/
def pumpIn (ao : AesOracles) (is_client : Bool) (m : Mitm)
    (inBytes : List Nat) : LoopSt :=
  { m := (decryptIn ao is_client m inBytes).2,
    rx := (if is_client then m.cs_rx else m.ms_rx) ++
          (decryptIn ao is_client m inBytes).1,
    cap := [], txAdd := [], bxAdd := [] }

/-- After the loop, the leftover receive bytes are stored back in that
leg's decoded receive buffer. -/
def pumpM2 (is_client : Bool) (st : LoopSt) : Mitm :=
  if is_client then { st.m with cs_rx := st.rx }
  else { st.m with ms_rx := st.rx }

/-- The forward-buffer flush: buffered bytes plus the bytes the loop
appended. -/
def pumpFt (ao : AesOracles) (is_client : Bool) (st : LoopSt) :
    List Nat × Mitm :=
  flushTx ao is_client (pumpM2 is_client st)
    ((if is_client then (pumpM2 is_client st).cs_tx
      else (pumpM2 is_client st).ms_tx) ++ st.txAdd)

/-- The forward buffer is emptied after its flush (`tx->C(data) = 0`). -/
def pumpM3 (ao : AesOracles) (is_client : Bool) (st : LoopSt) : Mitm :=
  if is_client then { (pumpFt ao is_client st).2 with cs_tx := [] }
  else { (pumpFt ao is_client st).2 with ms_tx := [] }

/-- The retour-buffer flush. -/
def pumpFb (ao : AesOracles) (is_client : Bool) (st : LoopSt) :
    List Nat × Mitm :=
  flushBx ao is_client (pumpM3 ao is_client st)
    ((if is_client then (pumpM3 ao is_client st).ms_tx
      else (pumpM3 ao is_client st).cs_tx) ++ st.bxAdd)

/-- The retour buffer is emptied after its flush. -/
def pumpM4 (ao : AesOracles) (is_client : Bool) (st : LoopSt) : Mitm :=
  if is_client then { (pumpFb ao is_client st).2 with ms_tx := [] }
  else { (pumpFb ao is_client st).2 with cs_tx := [] }

/-- The tail of a `handle_proxy` iteration after the extraction loop:
store the leftover receive bytes, flush the forward buffer then the
retour buffer (encrypting when active), clear both, and run the deferred
encryption activation. -/
def pumpOut (ao : AesOracles) (is_client : Bool) (st : LoopSt) : HPRes :=
  .ok (enableStep (pumpM4 ao is_client st)) st.cap
      (pumpFt ao is_client st).1 (pumpFb ao is_client st).1

/-- `handle_proxy` (mcproxy.c:507): on remote EOF close both sides, reset
the phase to IDLE and disable compression.  Otherwise decrypt the incoming
bytes when encryption is active, append them to the decoded receive
buffer, run the frame-extraction loop, flush the forward and retour
buffers (encrypting in place when active), and finally perform the
deferred encryption activation. -/
def handle_proxy (lo : LoginOracles) (zo : ZlibOracles) (ao : AesOracles)
    (ids : Ids) (sup : Support) (tv : Nat × Nat) (is_client : Bool)
    (remoteEof : Bool) (inBytes : List Nat) (m : Mitm) : HPRes :=
  if remoteEof then
    .eof { m with state := 0, comptr := -1 }
  else
    match extractLoop lo zo ids sup is_client tv
        ((pumpIn ao is_client m inBytes).rx.length + 1)
        (pumpIn ao is_client m inBytes) with
    | .error a => .fail a
    | .ok st => pumpOut ao is_client st

/-! ## Concrete instances used by the claim witnesses -/

/-- The protocol-1.8 id constants (CI_Handshake 0x00,
CL_EncryptionResponse 0x01, SL_EncryptionRequest 0x01,
SL_SetCompression 0x03, SL_LoginSuccess 0x02). -/
def ids18 : Ids :=
  { handshake := 0, encResponse := 1, encRequest := 1,
    setCompression := 3, loginSuccess := 2 }

/-- An empty codec table: no decode and no encode methods registered. -/
def supNone : Support := { decodeM := fun _ _ => none, encodeM := fun _ _ => none }

/-- zlib oracle used by witnesses: "deflate" prepends a byte, "inflate"
strips it. -/
def zoW : ZlibOracles :=
  { deflate := fun l => 7 :: l,
    inflate := fun l => some (l.drop 1) }

/-- RSA oracles used by witnesses: encryption and decryption are both the
identity. -/
def loW : LoginOracles :=
  { rsaPrivDecrypt := fun l => some l,
    rsaPubEncrypt := fun l => l,
    derDecode := fun _ => true,
    genRsaDer := some [1, 2, 3],
    freshSkey := List.replicate 16 9,
    freshTok := [4, 3, 2, 1] }

/-- AES oracles used by witnesses: two distinct dummy stream ciphers. -/
def aoW : AesOracles :=
  { aesEnc := fun _ iv d => (d, iv),
    aesDec := fun _ iv d => (d, iv) }

def aoW2 : AesOracles :=
  { aesEnc := fun _ iv d => (d.map (· + 1), iv),
    aesDec := fun _ iv d => (d.map (· + 1), iv) }

/-- zlib oracle for the capture counterexample: a compressed body that
inflates to the 3-byte frame `[7, 7, 7]`. -/
def zo8 : ZlibOracles :=
  { deflate := fun _ => [9], inflate := fun _ => some [7, 7, 7] }

/-- PLAY-phase session with compression threshold 0 and capture enabled. -/
def m8 : Mitm := { mitm0 with state := 3, comptr := 0, output := true }

theorem readVarintAux_writeVarintFuel :
    ∀ (f n : Nat), n < 128 ^ f →
      ∀ acc mult rest, readVarintAux acc mult (writeVarintFuel f n ++ rest) =
        some (acc + n * mult, rest) := by
  intro f
  induction f with
  | zero =>
    intro n h acc mult rest
    have hn : n = 0 := by simpa using h
    subst hn
    simp [writeVarintFuel, readVarintAux]
  | succ f ih =>
    intro n h acc mult rest
    by_cases hlt : n < 128
    · simp [writeVarintFuel, hlt, readVarintAux, Nat.mod_eq_of_lt hlt]
    · rw [writeVarintFuel]
      simp only [hlt, if_false, List.cons_append]
      rw [readVarintAux]
      have hb : ¬ (n % 128 + 128 < 128) := by omega
      simp only [hb, if_false]
      have hmod : (n % 128 + 128) % 128 = n % 128 := by omega
      have hdiv : n / 128 < 128 ^ f := by
        rw [Nat.div_lt_iff_lt_mul (by omega)]
        calc n < 128 ^ (f + 1) := h
          _ = 128 ^ f * 128 := by ring
      rw [hmod, ih (n / 128) hdiv]
      have h1 : n % 128 * mult + n / 128 * (mult * 128) = n * mult := by
        calc n % 128 * mult + n / 128 * (mult * 128)
            = (n % 128 + 128 * (n / 128)) * mult := by ring
          _ = n * mult := by rw [Nat.mod_add_div]
      simp only [Option.some.injEq, Prod.mk.injEq]
      refine ⟨?_, trivial⟩
      rw [Nat.add_assoc, h1]

/-- Round-trip: reading back a written varint yields the 32-bit value and
the trailing bytes. -/
theorem readVarint_writeVarint (n : Nat) (h : n < 4294967296)
    (rest : List Nat) :
    readVarint (writeVarint n ++ rest) = some (n, rest) := by
  rw [readVarint, writeVarint, Nat.mod_eq_of_lt h,
    readVarintAux_writeVarintFuel 5 n (by omega)]
  simp

theorem arrFill_of_length (n : Nat) (l : List Nat) (h : l.length = n) :
    arrFill n l = l := by
  subst h
  simp [arrFill]

theorem cstr_of_no_nul (l : List Nat) (h : 0 ∉ l) : cstr l = l := by
  induction l with
  | nil => rfl
  | cons a t ih =>
    simp only [List.mem_cons, not_or] at h
    have ha : ¬ a = 0 := fun e => h.1 e.symm
    have ht := ih h.2
    simp only [cstr] at ht ⊢
    rw [List.takeWhile_cons]
    have hd : decide (a ≠ 0) = true := by simp [ha]
    rw [hd, if_pos rfl, ht]

/-! ## Claim theorems -/

/-- The SHA-1 digest of the 16-byte all-zero shared key, evaluated once
and shared by the C3 theorems. -/
theorem sha1_zero16 :
    sha1 ([] ++ List.replicate 16 0 ++ []) =
      [0xe1, 0x29, 0xf2, 0x7c, 0x51, 0x03, 0xbc, 0x5c, 0xc4, 0x4b,
       0xcd, 0xf0, 0xa1, 0x5e, 0x16, 0x0d, 0x44, 0x50, 0x66, 0xff] := by
  decide

/-- C3 (counterexample): for serverId = "", shared_key = 00×16 and an
empty server pubkey, the SHA-1 over the concatenation hashed by
`query_auth_server` is not `da39a3ee5e6b4b0d3255bfef95601890afd80709`
(the key bytes are always hashed, so the input is not empty), the
sessionId is not `-2572e9c1a1a91ecf2cdaa4106a9fe76f5027f8f7`, and even
`print_hex` applied to the claimed digest does not produce the claimed
string. -/
theorem C3_sessionId_vector_counterexample :
    sha1 ([] ++ List.replicate 16 0 ++ []) ≠
      [0xda, 0x39, 0xa3, 0xee, 0x5e, 0x6b, 0x4b, 0x0d, 0x32, 0x55,
       0xbf, 0xef, 0x95, 0x60, 0x18, 0x90, 0xaf, 0xd8, 0x07, 0x09] ∧
    query_auth_sessionId [] (List.replicate 16 0) [] ≠
      "-2572e9c1a1a91ecf2cdaa4106a9fe76f5027f8f7" ∧
    print_hex [0xda, 0x39, 0xa3, 0xee, 0x5e, 0x6b, 0x4b, 0x0d, 0x32, 0x55,
       0xbf, 0xef, 0x95, 0x60, 0x18, 0x90, 0xaf, 0xd8, 0x07, 0x09] ≠
      "-2572e9c1a1a91ecf2cdaa4106a9fe76f5027f8f7" :=
  ⟨by rw [sha1_zero16]; decide,
   by simp only [query_auth_sessionId]; rw [sha1_zero16]; decide,
   by decide⟩

/-- C3 (amended): the sessionId posted to the real session server is
`print_hex (sha1 (serverId ‖ 16-byte server key ‖ server DER pubkey))`
(definition `query_auth_sessionId`, translating the three `SHA1_Update`
calls of `query_auth_server`); for serverId = "", shared_key = 00×16 and
an empty pubkey the digest is `e129f27c5103bc5cc44bcdf0a15e160d445066ff`
and the formatted sessionId is
`-1ed60d83aefc43a33bb4320f5ea1e9f2bbaf9901`. -/
theorem C3_sessionId_vector :
    query_auth_sessionId [] (List.replicate 16 0) [] =
      "-1ed60d83aefc43a33bb4320f5ea1e9f2bbaf9901" ∧
    sha1 ([] ++ List.replicate 16 0 ++ []) =
      [0xe1, 0x29, 0xf2, 0x7c, 0x51, 0x03, 0xbc, 0x5c, 0xc4, 0x4b,
       0xcd, 0xf0, 0xa1, 0x5e, 0x16, 0x0d, 0x44, 0x50, 0x66, 0xff] ∧
    query_auth_sessionId [] (List.replicate 16 0) [] =
      print_hex (sha1 ([] ++ List.replicate 16 0 ++ [])) :=
  ⟨by simp only [query_auth_sessionId]; rw [sha1_zero16]; decide,
   sha1_zero16, rfl⟩

/-- C6: with compression threshold `t ≥ 0`, `write_packet` emits
`varint(orig_len) ‖ deflate(frame)` when the encoded frame's length is
`≥ t`, and `varint(0) ‖ frame` when it is `< t` (each inside the outer
length-varint framing of `write_packet_raw`). -/
theorem C6_write_packet_envelope (zo : ZlibOracles) (comptr : Int)
    (sup : Support) (pkt : MCPacket) (enc : List Nat)
    (henc : encode_packet sup pkt = some enc) (hc : 0 ≤ comptr) :
    (comptr ≤ (enc.length : Int) → (zo.deflate enc).length ≠ 0 →
      write_packet zo comptr sup pkt =
        some (write_packet_raw (writeVarint enc.length ++ zo.deflate enc))) ∧
    ((enc.length : Int) < comptr →
      write_packet zo comptr sup pkt =
        some (write_packet_raw (writeVarint 0 ++ enc))) := by
  constructor
  · intro hge hd
    simp [write_packet, henc, hc, hge, hd]
  · intro hlt
    have hn : ¬ (comptr ≤ (enc.length : Int)) := by omega
    simp [write_packet, henc, hc, hn]

/-- C6 witness: a 2-byte frame at threshold 1 goes through the deflate
branch. -/
theorem C6_write_packet_envelope_witness :
    write_packet zoW 1 supNone
        { type := 0, cl := false, modified := false, raw := [5],
          threshold := 0, ver := 0 } =
      some (write_packet_raw (writeVarint 2 ++ [7, 0, 5])) := by
  have h := (C6_write_packet_envelope zoW 1 supNone
    { type := 0, cl := false, modified := false, raw := [5],
      threshold := 0, ver := 0 } [0, 5] (by decide) (by decide)).1
    (by decide) (by decide)
  simpa [zoW] using h

/-- C7: decoding a PLAY frame and re-encoding it while unmodified is the
identity on the frame bytes (type varint followed by the original payload
bytes), for any codec table — in particular for a table with no decoder
registered (an unknown type), where decoding still succeeds; and a packet
marked modified whose type has no registered encoder makes
`encode_packet` fail (the `assert(0)`). -/
theorem C7_codec_roundtrip (sup : Support) (cl : Bool) (t : Nat)
    (payload : List Nat) (ht : t < 4294967296) :
    (∃ pkt, decode_packet sup cl (writeVarint t ++ payload) = some pkt ∧
       pkt.modified = false ∧ pkt.type = t ∧ pkt.raw = payload ∧
       encode_packet sup pkt = some (writeVarint t ++ payload)) ∧
    (∀ pkt : MCPacket, pkt.modified = true →
       sup.encodeM pkt.cl pkt.type = none → encode_packet sup pkt = none) := by
  constructor
  · rw [decode_packet, readVarint_writeVarint t ht]
    cases hdm : sup.decodeM cl t with
    | none =>
      refine ⟨{ type := t, cl := cl, modified := false, raw := payload,
                threshold := 0, ver := 0 }, ?_, rfl, rfl, rfl, ?_⟩
      · simp [hdm]
      · simp [encode_packet]
    | some dm =>
      refine ⟨{ type := t, cl := cl, modified := false, raw := payload,
                threshold := (dm payload).1, ver := (dm payload).2 },
              ?_, rfl, rfl, rfl, ?_⟩
      · simp [hdm]
      · simp [encode_packet]
  · intro pkt hm he
    simp [encode_packet, hm, he]

/-- C7 witness: concrete unknown-type frame round-trips; a modified packet
without an encoder aborts. -/
theorem C7_codec_roundtrip_witness :
    (∃ pkt, decode_packet supNone false (writeVarint 9 ++ [1, 2]) = some pkt ∧
       pkt.modified = false ∧ pkt.type = 9 ∧ pkt.raw = [1, 2] ∧
       encode_packet supNone pkt = some (writeVarint 9 ++ [1, 2])) ∧
    encode_packet supNone
      { type := 9, cl := false, modified := true, raw := [1, 2],
        threshold := 0, ver := 0 } = none := by
  have h := C7_codec_roundtrip supNone false 9 [1, 2] (by decide)
  exact ⟨h.1, h.2 _ rfl rfl⟩

/-- C10: while the compression threshold is ≥ 0, `process_packet` (the
IDLE/STATUS/LOGIN dispatcher) only strips a leading zero varint; a frame
whose envelope varint `U` is non-zero (a genuinely compressed login-phase
frame) fails the `assert(uclen==0)` instead of being inflated. -/
theorem C10_login_envelope_assert (lo : LoginOracles) (ids : Ids)
    (cl : Bool) (m : Mitm) (u : Nat) (rest : List Nat)
    (hc : 0 ≤ m.comptr) (hu : u ≠ 0) (hu32 : u < 4294967296) :
    process_packet lo ids cl m (writeVarint u ++ rest) =
      .error .assertFail := by
  simp [process_packet, hc, readVarint_writeVarint u hu32, hu]

/-- C10 witness: a LOGIN-phase frame with `U = 1` hits the assert. -/
theorem C10_login_envelope_assert_witness :
    process_packet loW ids18 true { mitm0 with comptr := 0 }
        (writeVarint 1 ++ [0, 0]) = .error .assertFail :=
  C10_login_envelope_assert loW ids18 true { mitm0 with comptr := 0 } 1
    [0, 0] (by decide) (by decide) (by decide)

/-- C5: on the server's EncryptionRequest, the proxy emits to the client a
synthesized EncryptionRequest carrying the server's original serverId
string, the DER encoding of the freshly generated client-side RSA key
(`lo.genRsaDer`, not the server's `pk`), and the freshly drawn 4-byte
client-side token (`lo.freshTok`, not the server's `tk`). -/
theorem C5_encryption_request_synthesis (lo : LoginOracles) (pid : Nat)
    (m : Mitm) (sid pk tk der : List Nat)
    (hsid0 : 0 ∉ sid) (hs32 : sid.length < 4294967296)
    (hk32 : pk.length < 4294967296) (hk : pk.length ≤ 1024)
    (ht32 : tk.length < 4294967296) (htk : tk.length ≤ 4)
    (hdec : lo.derDecode pk = true) (hder : lo.genRsaDer = some der)
    (hfresh : lo.freshTok.length = 4) :
    process_encryption_request lo pid m
        (writeVarint sid.length ++ (sid ++ (writeVarint pk.length ++
         (pk ++ (writeVarint tk.length ++ tk))))) =
      .ok ({ m with s_id := sid, s_pkey := pk, s_token := arrFill 4 tk,
                    s_skey := arrFill 16 lo.freshSkey, c_pkey := der,
                    c_token := lo.freshTok },
           write_packet_raw
             ((if 0 ≤ m.comptr then writeVarint 0 else []) ++
              writeVarint pid ++ writeVarint sid.length ++ sid ++
              writeVarint der.length ++ der ++ writeVarint 4 ++ lo.freshTok),
           []) := by
  have e1 := readVarint_writeVarint sid.length hs32
    (sid ++ (writeVarint pk.length ++ (pk ++ (writeVarint tk.length ++ tk))))
  have e2 := readVarint_writeVarint pk.length hk32
    (pk ++ (writeVarint tk.length ++ tk))
  have e3 := readVarint_writeVarint tk.length ht32 tk
  have l1 : ¬ ((sid ++ (writeVarint pk.length ++
      (pk ++ (writeVarint tk.length ++ tk)))).length < sid.length) := by
    simp [List.length_append]
  have l2 : ¬ (((pk ++ (writeVarint tk.length ++ tk)).length < pk.length) ∨
      1024 < pk.length) := by
    simp [List.length_append]
    omega
  have l3 : ¬ ((tk.length < tk.length) ∨ 4 < tk.length) := by omega
  rw [process_encryption_request, e1]
  simp only [List.take_left, List.drop_left, l1, if_neg, ite_false, e2,
    List.take_left, List.drop_left, l2, e3, List.take_length,
    cstr_of_no_nul sid hsid0, hdec, hder]
  simp only [l3, ite_false]
  simp [arrFill_of_length 4 lo.freshTok hfresh]

/-- C5 witness: concrete EncryptionRequest interception. -/
theorem C5_encryption_request_synthesis_witness :
    process_encryption_request loW 1 { mitm0 with comptr := -1 }
        (writeVarint 1 ++ ([65] ++ (writeVarint 2 ++
         ([2, 2] ++ (writeVarint 4 ++ [9, 9, 9, 9]))))) =
      .ok ({ { mitm0 with comptr := -1 } with
               s_id := [65], s_pkey := [2, 2], s_token := arrFill 4 [9, 9, 9, 9],
               s_skey := arrFill 16 loW.freshSkey, c_pkey := [1, 2, 3],
               c_token := loW.freshTok },
           write_packet_raw
             ((if 0 ≤ ({ mitm0 with comptr := -1 } : Mitm).comptr then
                 writeVarint 0 else []) ++
              writeVarint 1 ++ writeVarint ([65] : List Nat).length ++ [65] ++
              writeVarint ([1, 2, 3] : List Nat).length ++ [1, 2, 3] ++
              writeVarint 4 ++ loW.freshTok),
           []) :=
  C5_encryption_request_synthesis loW 1 { mitm0 with comptr := -1 }
    [65] [2, 2] [9, 9, 9, 9] [1, 2, 3] (by decide) (by decide) (by decide)
    (by decide) (by decide) (by decide) (by decide) (by decide) (by decide)

/-- `(short)` casts are the identity below 32768. -/
theorem shortToVarintVal_of_lt (n : Nat) (h : n < 32768) :
    shortToVarintVal n = n := by
  simp [shortToVarintVal, Nat.mod_eq_of_lt (show n < 65536 by omega), h]

/-- C4: on a valid client EncryptionResponse, the proxy emits to the
server an EncryptionResponse frame containing exactly two ciphertexts
produced by `RSA_public_encrypt` with the server's public key — of the
stored 16-byte server-side AES key and the stored server verification
token — and any decryption that inverts that encryption recovers both
byte-for-byte. -/
theorem C4_encryption_response_to_server (lo : LoginOracles) (pid : Nat)
    (m : Mitm) (k t rest dk dt : List Nat)
    (hk32 : k.length < 4294967296) (ht32 : t.length < 4294967296)
    (hdk : lo.rsaPrivDecrypt k = some dk) (hdk16 : 16 ≤ dk.length)
    (hdt : lo.rsaPrivDecrypt t = some dt) (hdt4 : 4 ≤ dt.length)
    (hmatch : dt.take 4 = m.c_token)
    (hek : (lo.rsaPubEncrypt m.s_skey).length < 32768)
    (het : (lo.rsaPubEncrypt m.s_token).length < 32768) :
    process_encryption_response lo pid m
        (writeVarint k.length ++ (k ++ (writeVarint t.length ++ (t ++ rest)))) =
      .ok ({ m with c_skey := dk.take 16, enable_encryption := true },
           write_packet_raw
             ((if 0 ≤ m.comptr then writeVarint 0 else []) ++
              writeVarint pid ++
              writeVarint (lo.rsaPubEncrypt m.s_skey).length ++
              lo.rsaPubEncrypt m.s_skey ++
              writeVarint (lo.rsaPubEncrypt m.s_token).length ++
              lo.rsaPubEncrypt m.s_token),
           []) ∧
    (∀ dec : List Nat → List Nat, (∀ x, dec (lo.rsaPubEncrypt x) = x) →
       dec (lo.rsaPubEncrypt m.s_skey) = m.s_skey ∧
       dec (lo.rsaPubEncrypt m.s_token) = m.s_token) := by
  constructor
  · have e1 := readVarint_writeVarint k.length hk32
      (k ++ (writeVarint t.length ++ (t ++ rest)))
    have e2 := readVarint_writeVarint t.length ht32 (t ++ rest)
    have l1 : ¬ ((k ++ (writeVarint t.length ++ (t ++ rest))).length <
        k.length) := by simp [List.length_append]
    have l2 : ¬ ((t ++ rest).length < t.length) := by
      simp [List.length_append]
    have l3 : ¬ (dk.length < 16) := by omega
    have l4 : ¬ (dt.length < 4) := by omega
    rw [process_encryption_response, e1]
    simp only [List.take_left, List.drop_left, l1, ite_false, e2, hdk, hdt,
      l3, l4, hmatch]
    simp [shortToVarintVal_of_lt _ hek, shortToVarintVal_of_lt _ het]
  · intro dec hdec
    exact ⟨hdec _, hdec _⟩

/-- C4 witness: concrete EncryptionResponse with identity RSA oracles. -/
theorem C4_encryption_response_to_server_witness :
    process_encryption_response loW 1
        { mitm0 with c_token := [1, 2, 3, 4],
                     s_skey := List.replicate 16 8, s_token := [1, 1, 1, 1] }
        (writeVarint 16 ++ (List.replicate 16 5 ++
          (writeVarint 4 ++ ([1, 2, 3, 4] ++ [])))) =
      .ok ({ { mitm0 with c_token := [1, 2, 3, 4],
                          s_skey := List.replicate 16 8,
                          s_token := [1, 1, 1, 1] } with
               c_skey := (List.replicate 16 5).take 16,
               enable_encryption := true },
           write_packet_raw
             ((if 0 ≤ (0 : Int) then writeVarint 0 else []) ++
              writeVarint 1 ++
              writeVarint (List.replicate 16 8).length ++
              List.replicate 16 8 ++
              writeVarint ([1, 1, 1, 1] : List Nat).length ++ [1, 1, 1, 1]),
           []) ∧
    (∀ dec : List Nat → List Nat, (∀ x, dec (loW.rsaPubEncrypt x) = x) →
       dec (loW.rsaPubEncrypt (List.replicate 16 8)) = List.replicate 16 8 ∧
       dec (loW.rsaPubEncrypt [1, 1, 1, 1]) = [1, 1, 1, 1]) := by
  have h := C4_encryption_response_to_server loW 1
    { mitm0 with c_token := [1, 2, 3, 4], s_skey := List.replicate 16 8,
                 s_token := [1, 1, 1, 1] }
    (List.replicate 16 5) [1, 2, 3, 4] [] (List.replicate 16 5) [1, 2, 3, 4]
    (by decide) (by decide) (by decide) (by decide) (by decide) (by decide)
    (by decide) (by decide) (by decide)
  simpa using h

/-- C1 (counterexample): a client EncryptionResponse whose decrypted token
is `[9,9,9,9]` while the proxy issued `[1,2,3,4]` makes
`process_encryption_response` call `exit(1)` (`Abort.exitProc`), which
terminates the entire proxy process — it does not drop just the session
pair, reset the phase to IDLE and return to listening. -/
theorem C1_token_mismatch_counterexample :
    process_encryption_response loW 1 { mitm0 with c_token := [1, 2, 3, 4] }
        (writeVarint 16 ++ (List.replicate 16 5 ++
          (writeVarint 4 ++ [9, 9, 9, 9]))) = .error .exitProc := by
  decide

/-- C1 (amended): whenever the decrypted verification token differs from
the proxy-issued client-side token, `process_encryption_response` reaches
`exit(1)`: the whole process terminates (no session-scoped teardown, no
return to listening). -/
theorem C1_token_mismatch_exits (lo : LoginOracles) (pid : Nat) (m : Mitm)
    (k t rest dk dt : List Nat)
    (hk32 : k.length < 4294967296) (ht32 : t.length < 4294967296)
    (hdk : lo.rsaPrivDecrypt k = some dk) (hdk16 : 16 ≤ dk.length)
    (hdt : lo.rsaPrivDecrypt t = some dt) (hdt4 : 4 ≤ dt.length)
    (hmatch : dt.take 4 ≠ m.c_token) :
    process_encryption_response lo pid m
        (writeVarint k.length ++ (k ++ (writeVarint t.length ++ (t ++ rest)))) =
      .error .exitProc := by
  have e1 := readVarint_writeVarint k.length hk32
    (k ++ (writeVarint t.length ++ (t ++ rest)))
  have e2 := readVarint_writeVarint t.length ht32 (t ++ rest)
  have l1 : ¬ ((k ++ (writeVarint t.length ++ (t ++ rest))).length <
      k.length) := by simp [List.length_append]
  have l2 : ¬ ((t ++ rest).length < t.length) := by
    simp [List.length_append]
  have l3 : ¬ (dk.length < 16) := by omega
  have l4 : ¬ (dt.length < 4) := by omega
  rw [process_encryption_response, e1]
  simp only [List.take_left, List.drop_left, l1, ite_false, e2, hdk, hdt,
    l3, l4]
  simp [hmatch]

/-- C1 witness: the amended theorem applied at a concrete mismatching
token. -/
theorem C1_token_mismatch_exits_witness :
    process_encryption_response loW 1 { mitm0 with c_token := [1, 2, 3, 4] }
        (writeVarint 16 ++ (List.replicate 16 5 ++
          (writeVarint 4 ++ ([9, 9, 9, 9] ++ [])))) = .error .exitProc :=
  C1_token_mismatch_exits loW 1 { mitm0 with c_token := [1, 2, 3, 4] }
    (List.replicate 16 5) [9, 9, 9, 9] [] (List.replicate 16 5) [9, 9, 9, 9]
    (by decide) (by decide) (by decide) (by decide) (by decide) (by decide)
    (by decide)

/-! ## Supporting lemmas for the pump theorems -/

theorem readVarintAux_length :
    ∀ (l : List Nat) (acc mult v : Nat) (after : List Nat),
      readVarintAux acc mult l = some (v, after) → after.length < l.length := by
  intro l
  induction l with
  | nil => intro acc mult v after h; simp [readVarintAux] at h
  | cons b rest ih =>
    intro acc mult v after h
    rw [readVarintAux] at h
    by_cases hb : b < 128
    · rw [if_pos hb] at h
      cases h
      simp
    · rw [if_neg hb] at h
      have := ih _ _ _ _ h
      simp only [List.length_cons]
      omega

theorem readVarint_length (l : List Nat) (v : Nat) (after : List Nat)
    (h : readVarint l = some (v, after)) : after.length < l.length :=
  readVarintAux_length l 0 1 v after h

/-- The LOGIN-phase interceptors never touch `encryption_active` (the
EncryptionResponse handler only arms `enable_encryption`). -/
theorem process_encryption_request_preserves (lo : LoginOracles) (pid : Nat)
    (m : Mitm) (p : List Nat) (m' : Mitm) (tx bx : List Nat)
    (h : process_encryption_request lo pid m p = .ok (m', tx, bx)) :
    m'.encryption_active = m.encryption_active ∧
    m'.enable_encryption = m.enable_encryption := by
  unfold process_encryption_request at h
  iterate 14 (all_goals ((try simp only [] at h); (try split at h)))
  all_goals (try (obtain ⟨hm, h2, h3⟩ := h))
  all_goals (try simp)

theorem process_encryption_response_preserves (lo : LoginOracles) (pid : Nat)
    (m : Mitm) (p : List Nat) (m' : Mitm) (tx bx : List Nat)
    (h : process_encryption_response lo pid m p = .ok (m', tx, bx)) :
    m'.encryption_active = m.encryption_active := by
  unfold process_encryption_response at h
  iterate 14 (all_goals ((try simp only [] at h); (try split at h)))
  all_goals (try (obtain ⟨hm, h2, h3⟩ := h))
  all_goals (try simp)

theorem process_packet_active (lo : LoginOracles) (ids : Ids) (cl : Bool)
    (m : Mitm) (frame : List Nat) (m' : Mitm) (tx bx : List Nat)
    (h : process_packet lo ids cl m frame = .ok (m', tx, bx)) :
    m'.encryption_active = m.encryption_active := by
  unfold process_packet at h
  iterate 14 (all_goals ((try simp only [] at h); (try split at h)))
  all_goals
    (try (exact (process_encryption_response_preserves _ _ _ _ _ _ _ h)))
  all_goals
    (try (exact (process_encryption_request_preserves _ _ _ _ _ _ _ h).1))
  all_goals (try (obtain ⟨hm, h2, h3⟩ := h))
  all_goals (try simp)

/-- The PLAY-phase path never modifies the session context. -/
theorem process_play_packet_state (zo : ZlibOracles) (sup : Support)
    (cl : Bool) (m : Mitm) (frame : List Nat) (m' : Mitm) (tx bx : List Nat)
    (h : process_play_packet zo sup cl m frame = .ok (m', tx, bx)) :
    m' = m := by
  unfold process_play_packet at h
  iterate 10 (all_goals ((try simp only [] at h); (try split at h)))
  all_goals (try (obtain ⟨hm, h2, h3⟩ := h))
  all_goals (try simp)

/-- The frame-extraction loop never changes `encryption_active`. -/
theorem extractLoop_active (lo : LoginOracles) (zo : ZlibOracles) (ids : Ids)
    (sup : Support) (cl : Bool) (tv : Nat × Nat) :
    ∀ (fuel : Nat) (st st' : LoopSt),
      extractLoop lo zo ids sup cl tv fuel st = .ok st' →
      st'.m.encryption_active = st.m.encryption_active := by
  intro fuel
  induction fuel with
  | zero =>
    intro st st' h
    rw [extractLoop] at h
    cases h
    rfl
  | succ fuel ih =>
    intro st st' h
    rw [extractLoop] at h
    by_cases h1 : st.rx = []
    · rw [if_pos h1] at h; cases h; rfl
    rw [if_neg h1] at h
    by_cases h2 : 128 ≤ st.rx.headD 0 ∧ st.rx.length < 129
    · rw [if_pos h2] at h; cases h; rfl
    rw [if_neg h2] at h
    cases hrv : readVarint st.rx with
    | none => rw [hrv] at h; cases h
    | some pr =>
      obtain ⟨plen, after⟩ := pr
      rw [hrv] at h
      simp only [] at h
      by_cases h3 : st.rx.length < plen + (st.rx.length - after.length)
      · rw [if_pos h3] at h; cases h; rfl
      rw [if_neg h3] at h
      cases hres : (if st.m.state = 3 then
          process_play_packet zo sup cl st.m (after.take plen)
        else process_packet lo ids cl st.m (after.take plen)) with
      | error a => rw [hres] at h; cases h
      | ok r =>
        obtain ⟨m1, txA, bxA⟩ := r
        rw [hres] at h
        simp only [] at h
        have hrec := ih _ _ h
        have hm1 : m1.encryption_active = st.m.encryption_active := by
          by_cases hs : st.m.state = 3
          · rw [if_pos hs] at hres
            rw [process_play_packet_state zo sup cl st.m _ m1 txA bxA hres]
          · rw [if_neg hs] at hres
            exact process_packet_active lo ids cl st.m _ m1 txA bxA hres
        rw [hrec, hm1]

/-- Every record the extraction loop appends to the capture list has the
per-frame record layout: four big-endian u32 fields (direction, seconds,
microseconds, payload length) followed by exactly that many frame bytes. -/
theorem extractLoop_cap (lo : LoginOracles) (zo : ZlibOracles) (ids : Ids)
    (sup : Support) (cl : Bool) (tv : Nat × Nat) :
    ∀ (fuel : Nat) (st st' : LoopSt),
      extractLoop lo zo ids sup cl tv fuel st = .ok st' →
      ∀ r ∈ st'.cap, r ∈ st.cap ∨ ∃ frame : List Nat,
        r = be32 (if cl then 1 else 0) ++ be32 tv.1 ++ be32 tv.2 ++
            be32 frame.length ++ frame := by
  intro fuel
  induction fuel with
  | zero =>
    intro st st' h
    rw [extractLoop] at h
    cases h
    exact fun r hr => Or.inl hr
  | succ fuel ih =>
    intro st st' h
    rw [extractLoop] at h
    by_cases h1 : st.rx = []
    · rw [if_pos h1] at h; cases h; exact fun r hr => Or.inl hr
    rw [if_neg h1] at h
    by_cases h2 : 128 ≤ st.rx.headD 0 ∧ st.rx.length < 129
    · rw [if_pos h2] at h; cases h; exact fun r hr => Or.inl hr
    rw [if_neg h2] at h
    cases hrv : readVarint st.rx with
    | none => rw [hrv] at h; cases h
    | some pr =>
      obtain ⟨plen, after⟩ := pr
      rw [hrv] at h
      simp only [] at h
      by_cases h3 : st.rx.length < plen + (st.rx.length - after.length)
      · rw [if_pos h3] at h; cases h; exact fun r hr => Or.inl hr
      rw [if_neg h3] at h
      cases hres : (if st.m.state = 3 then
          process_play_packet zo sup cl st.m (after.take plen)
        else process_packet lo ids cl st.m (after.take plen)) with
      | error a => rw [hres] at h; cases h
      | ok r0 =>
        obtain ⟨m1, txA, bxA⟩ := r0
        rw [hres] at h
        simp only [] at h
        intro r hr
        have hlen : (after.take plen).length = plen := by
          have hal := readVarint_length st.rx plen after hrv
          simp only [List.length_take]
          omega
        rcases ih _ _ h r hr with hin | hshape
        · by_cases ho : st.m.output
          · rw [if_pos ho] at hin
            rcases List.mem_append.mp hin with h4 | h5
            · exact Or.inl h4
            · right
              refine ⟨after.take plen, ?_⟩
              simp only [List.mem_singleton] at h5
              rw [h5, hlen]
          · rw [if_neg ho] at hin
            exact Or.inl hin
        · exact Or.inr hshape

theorem decryptIn_inactive (ao : AesOracles) (cl : Bool) (m : Mitm)
    (i : List Nat) (h : m.encryption_active = false) :
    decryptIn ao cl m i = (i, m) := by
  simp [decryptIn, h]

theorem decryptIn_fields (ao : AesOracles) (cl : Bool) (m : Mitm)
    (i : List Nat) :
    (decryptIn ao cl m i).2.encryption_active = m.encryption_active ∧
    (decryptIn ao cl m i).2.enable_encryption = m.enable_encryption := by
  unfold decryptIn
  by_cases h : m.encryption_active <;> by_cases hc : cl <;> simp [h, hc]

theorem flushTx_inactive (ao : AesOracles) (cl : Bool) (m2 : Mitm)
    (b : List Nat) (h : m2.encryption_active = false) :
    flushTx ao cl m2 b = (b, m2) := by
  unfold flushTx
  by_cases hb : b = [] <;> simp [hb, h]

theorem flushBx_inactive (ao : AesOracles) (cl : Bool) (m3 : Mitm)
    (b : List Nat) (h : m3.encryption_active = false) :
    flushBx ao cl m3 b = (b, m3) := by
  unfold flushBx
  by_cases hb : b = [] <;> simp [hb, h]

theorem flushTx_fields (ao : AesOracles) (cl : Bool) (m2 : Mitm)
    (b : List Nat) :
    (flushTx ao cl m2 b).2.encryption_active = m2.encryption_active ∧
    (flushTx ao cl m2 b).2.enable_encryption = m2.enable_encryption ∧
    (flushTx ao cl m2 b).2.c_skey = m2.c_skey ∧
    (flushTx ao cl m2 b).2.s_skey = m2.s_skey ∧
    (flushTx ao cl m2 b).2.cs_tx = m2.cs_tx ∧
    (flushTx ao cl m2 b).2.ms_tx = m2.ms_tx := by
  unfold flushTx
  by_cases hb : b = [] <;> by_cases h : m2.encryption_active <;>
    by_cases hc : cl <;> simp [hb, h, hc]

theorem flushBx_fields (ao : AesOracles) (cl : Bool) (m3 : Mitm)
    (b : List Nat) :
    (flushBx ao cl m3 b).2.encryption_active = m3.encryption_active ∧
    (flushBx ao cl m3 b).2.enable_encryption = m3.enable_encryption ∧
    (flushBx ao cl m3 b).2.c_skey = m3.c_skey ∧
    (flushBx ao cl m3 b).2.s_skey = m3.s_skey ∧
    (flushBx ao cl m3 b).2.cs_tx = m3.cs_tx ∧
    (flushBx ao cl m3 b).2.ms_tx = m3.ms_tx := by
  unfold flushBx
  by_cases hb : b = [] <;> by_cases h : m3.encryption_active <;>
    by_cases hc : cl <;> simp [hb, h, hc]

theorem enableStep_active (m4 : Mitm) :
    (enableStep m4).encryption_active =
      (m4.encryption_active || m4.enable_encryption) := by
  unfold enableStep
  by_cases h : m4.enable_encryption <;> simp [h]

theorem enableStep_of_inactive (m4 : Mitm)
    (h : m4.encryption_active = false)
    (h2 : (enableStep m4).encryption_active = true) :
    (enableStep m4).enable_encryption = false ∧
    (enableStep m4).c_aes = (enableStep m4).c_skey ∧
    (enableStep m4).c_enc_iv = (enableStep m4).c_skey ∧
    (enableStep m4).c_dec_iv = (enableStep m4).c_skey ∧
    (enableStep m4).s_aes = (enableStep m4).s_skey ∧
    (enableStep m4).s_enc_iv = (enableStep m4).s_skey ∧
    (enableStep m4).s_dec_iv = (enableStep m4).s_skey := by
  by_cases he : m4.enable_encryption
  · simp [enableStep, he]
  · exfalso
    simp [enableStep, he, h] at h2

theorem pumpM4_active (ao : AesOracles) (cl : Bool) (st : LoopSt) :
    (pumpM4 ao cl st).encryption_active = st.m.encryption_active := by
  unfold pumpM4 pumpFb pumpM3 pumpFt pumpM2
  by_cases hc : cl <;>
    simp [hc, (flushBx_fields _ _ _ _).1, (flushTx_fields _ _ _ _).1]

theorem pumpM4_enable (ao : AesOracles) (cl : Bool) (st : LoopSt) :
    (pumpM4 ao cl st).enable_encryption = st.m.enable_encryption := by
  unfold pumpM4 pumpFb pumpM3 pumpFt pumpM2
  by_cases hc : cl <;>
    simp [hc, (flushBx_fields _ _ _ _).2.1, (flushTx_fields _ _ _ _).2.1]

theorem pumpOut_inactive_eq (ao ao' : AesOracles) (cl : Bool) (st : LoopSt)
    (h : st.m.encryption_active = false) :
    pumpOut ao cl st = pumpOut ao' cl st := by
  have hm2 : (pumpM2 cl st).encryption_active = false := by
    unfold pumpM2
    by_cases hc : cl <;> simp [hc, h]
  have hft : ∀ a : AesOracles, pumpFt a cl st =
      ((if cl then (pumpM2 cl st).cs_tx else (pumpM2 cl st).ms_tx) ++
        st.txAdd, pumpM2 cl st) := by
    intro a
    unfold pumpFt
    exact flushTx_inactive a cl _ _ hm2
  have hm3 : ∀ a : AesOracles, pumpM3 a cl st = pumpM3 ao cl st := by
    intro a
    unfold pumpM3
    rw [hft a, hft ao]
  have hm3a : (pumpM3 ao cl st).encryption_active = false := by
    unfold pumpM3
    rw [hft ao]
    cases cl <;> simp_all
  have hfb : ∀ a : AesOracles, pumpFb a cl st =
      ((if cl then (pumpM3 ao cl st).ms_tx else (pumpM3 ao cl st).cs_tx) ++
        st.bxAdd, pumpM3 ao cl st) := by
    intro a
    unfold pumpFb
    rw [hm3 a]
    exact flushBx_inactive a cl _ _ hm3a
  unfold pumpOut pumpM4
  rw [hft ao, hft ao', hfb ao, hfb ao']

/-- C2: `encryption_active` is monotonic false→true across a pump
iteration (and untouched by the EOF teardown branch); when it flips, the
flip happens at the end of the iteration via the deferred-activation step,
which initialises both AES contexts and sets all four IV cursors to the
respective session key and clears the enable flag; and while it is still
false the whole iteration — including the flush that sends the outbound
EncryptionResponse frame — is independent of the AES cipher oracles, i.e.
everything is written in plaintext. -/
theorem C2_encryption_activation (lo : LoginOracles) (zo : ZlibOracles)
    (ao ao' : AesOracles) (ids : Ids) (sup : Support) (tv : Nat × Nat)
    (cl eof : Bool) (inB : List Nat) (m : Mitm) :
    (∀ m' cap tx bx,
       handle_proxy lo zo ao ids sup tv cl eof inB m = .ok m' cap tx bx →
       (m.encryption_active = true → m'.encryption_active = true) ∧
       (m.encryption_active = false → m'.encryption_active = true →
          m'.enable_encryption = false ∧
          m'.c_aes = m'.c_skey ∧ m'.c_enc_iv = m'.c_skey ∧
          m'.c_dec_iv = m'.c_skey ∧ m'.s_aes = m'.s_skey ∧
          m'.s_enc_iv = m'.s_skey ∧ m'.s_dec_iv = m'.s_skey)) ∧
    (∀ m', handle_proxy lo zo ao ids sup tv cl eof inB m = .eof m' →
       m'.encryption_active = m.encryption_active) ∧
    (m.encryption_active = false →
       handle_proxy lo zo ao ids sup tv cl eof inB m =
       handle_proxy lo zo ao' ids sup tv cl eof inB m) := by
  refine ⟨?_, ?_, ?_⟩
  · intro m' cap tx bx h
    rw [handle_proxy] at h
    by_cases he : eof
    · rw [if_pos he] at h; cases h
    rw [if_neg he] at h
    cases hex : extractLoop lo zo ids sup cl tv
        ((pumpIn ao cl m inB).rx.length + 1) (pumpIn ao cl m inB) with
    | error a => rw [hex] at h; cases h
    | ok st =>
      rw [hex] at h
      unfold pumpOut at h
      cases h
      have hst : st.m.encryption_active = m.encryption_active := by
        rw [extractLoop_active lo zo ids sup cl tv _ _ _ hex]
        show (pumpIn ao cl m inB).m.encryption_active = m.encryption_active
        rw [pumpIn]
        exact (decryptIn_fields ao cl m inB).1
      constructor
      · intro hact
        rw [enableStep_active, pumpM4_active, hst, hact]
        rfl
      · intro hinact hactive
        have h4a : (pumpM4 ao cl st).encryption_active = false := by
          rw [pumpM4_active, hst, hinact]
        exact enableStep_of_inactive _ h4a hactive
  · intro m' h
    rw [handle_proxy] at h
    by_cases he : eof
    · rw [if_pos he] at h
      cases h
      simp
    rw [if_neg he] at h
    cases hex : extractLoop lo zo ids sup cl tv
        ((pumpIn ao cl m inB).rx.length + 1) (pumpIn ao cl m inB) with
    | error a => rw [hex] at h; cases h
    | ok st =>
      rw [hex] at h
      unfold pumpOut at h
      cases h
  · intro hinact
    rw [handle_proxy, handle_proxy]
    by_cases he : eof
    · rw [if_pos he, if_pos he]
    rw [if_neg he, if_neg he]
    have hdi : decryptIn ao cl m inB = (inB, m) :=
      decryptIn_inactive _ _ _ _ hinact
    have hdi' : decryptIn ao' cl m inB = (inB, m) :=
      decryptIn_inactive _ _ _ _ hinact
    have hpi : pumpIn ao' cl m inB = pumpIn ao cl m inB := by
      rw [pumpIn, pumpIn, hdi, hdi']
    rw [hpi]
    cases hex : extractLoop lo zo ids sup cl tv
        ((pumpIn ao cl m inB).rx.length + 1) (pumpIn ao cl m inB) with
    | error a => rfl
    | ok st =>
      show pumpOut ao cl st = pumpOut ao' cl st
      apply pumpOut_inactive_eq
      rw [extractLoop_active lo zo ids sup cl tv _ _ _ hex]
      show (pumpIn ao cl m inB).m.encryption_active = false
      rw [pumpIn]
      simp [hdi, hinact]

/-- C2 witness: with encryption inactive, a concrete iteration is
independent of the AES oracles. -/
theorem C2_encryption_activation_witness :
    handle_proxy loW zoW aoW ids18 supNone (0, 0) true false [] mitm0 =
    handle_proxy loW zoW aoW2 ids18 supNone (0, 0) true false [] mitm0 :=
  (C2_encryption_activation loW zoW aoW aoW2 ids18 supNone (0, 0) true false
    [] mitm0).2.2 rfl

/-- C8 (amended): every record `handle_proxy` appends to the capture file
consists of four big-endian u32 fields — direction (1 = client→server,
0 = server→client), seconds, microseconds, payload length — followed by
exactly that many bytes of the frame as it sits in the decoded receive
buffer: post-decryption but pre-decompression (the PLAY-phase inflate runs
only after the record is written, so with compression active the record
holds the compressed envelope). -/
theorem C8_capture_record_layout (lo : LoginOracles) (zo : ZlibOracles)
    (ao : AesOracles) (ids : Ids) (sup : Support) (tv : Nat × Nat)
    (cl eof : Bool) (inB : List Nat) (m m' : Mitm)
    (cap : List (List Nat)) (tx bx : List Nat)
    (h : handle_proxy lo zo ao ids sup tv cl eof inB m = .ok m' cap tx bx) :
    ∀ r ∈ cap, ∃ frame : List Nat,
      r = be32 (if cl then 1 else 0) ++ be32 tv.1 ++ be32 tv.2 ++
          be32 frame.length ++ frame := by
  rw [handle_proxy] at h
  by_cases he : eof
  · rw [if_pos he] at h; cases h
  rw [if_neg he] at h
  cases hex : extractLoop lo zo ids sup cl tv
      ((pumpIn ao cl m inB).rx.length + 1) (pumpIn ao cl m inB) with
  | error a => rw [hex] at h; cases h
  | ok st =>
    rw [hex] at h
    unfold pumpOut at h
    cases h
    intro r hr
    rcases extractLoop_cap lo zo ids sup cl tv _ _ _ hex r hr with hin | hs
    · rw [pumpIn] at hin
      simp at hin
    · exact hs

/-- C8 (counterexample): with compression active in PLAY phase, the
capture record of a compressed frame holds the pre-decompression envelope
bytes `[3, 171]` (length 2), not the decompressed type-prefixed frame
`[7, 7, 7]` (length 3) that "after decompression on the read path" would
require — even though the same iteration does inflate the frame (the
re-encoded forward bytes `[2, 3, 9]` derive from the inflated `[7,7,7]`). -/
theorem C8_capture_predecompression_counterexample :
    handle_proxy loW zo8 aoW ids18 supNone (11, 22) true false
        [2, 3, 171] m8 =
      .ok m8 [be32 1 ++ be32 11 ++ be32 22 ++ be32 2 ++ [3, 171]]
        [2, 3, 9] [] ∧
    zo8.inflate [171] = some [7, 7, 7] ∧
    be32 1 ++ be32 11 ++ be32 22 ++ be32 2 ++ [3, 171] ≠
      be32 1 ++ be32 11 ++ be32 22 ++ be32 ([7, 7, 7] : List Nat).length ++
        [7, 7, 7] :=
  ⟨by decide, by decide, by decide⟩

/-- C8 witness: the record layout theorem applied to the one record of
the concrete capture run. -/
theorem C8_capture_record_layout_witness :
    ∃ frame : List Nat,
      be32 1 ++ be32 11 ++ be32 22 ++ be32 2 ++ [3, 171] =
        be32 (if true then 1 else 0) ++ be32 (11, 22).1 ++
        be32 (11, 22).2 ++ be32 frame.length ++ frame :=
  C8_capture_record_layout loW zo8 aoW ids18 supNone (11, 22) true false
    [2, 3, 171] m8 m8
    [be32 1 ++ be32 11 ++ be32 22 ++ be32 2 ++ [3, 171]] [2, 3, 9] []
    (by decide)
    (be32 1 ++ be32 11 ++ be32 22 ++ be32 2 ++ [3, 171]) (by simp)

